import Mathlib

/-!
Verification of the bytebeam-esp-idf-sdk core against its specification.

The embedding covers, from src/main/bytebeam_esp_hal.c:
- the OTA HTTP data-event handler (progress computation and throttled
  publishing), including an exact model of the single-precision float
  arithmetic the C code uses;
- the size-discovery (probe) event handler and bytebeam_hal_ota;
- the boot-time persisted-record path in bytebeam_hal_init.

The action registry is declared in
src/components/bytebeam_esp_sdk/include/bytebeam_sdk.h but its
implementation is not part of the source tree; it is modelled from the
specification text, as marked on the relevant definitions.

Machine integers are modelled as unbounded integers: every quantity the
theorems touch stays far below 2^31, and the C int-to-float conversions
are exact below 2^24, which the theorems assume where it matters.
-/

namespace Bytebeam

/-! ### Exact model of the single-precision progress computation

The C statement

  update_progress_percent = (((float)downloaded_data_len /
                              (float)ota_img_data_len) * 100.00);

converts both ints to float (exact for magnitudes below 2^24), divides in
single precision (round to nearest, ties to even, 24-bit significand),
multiplies by 100.0 in double precision (exact, since a float significand
times 100 needs at most 31 bits), and truncates toward zero on the
conversion to int.  The model computes the correctly rounded 24-bit value
of the exact rational quotient, in pure integer arithmetic. -/

/-- Floor of the base-2 logarithm of a natural number, with explicit fuel
so that the definition is structurally recursive and kernel-evaluable. -/
def natLog2 : Nat → Nat → Nat
  | 0, _ => 0
  | fuel + 1, n => if n ≤ 1 then 0 else natLog2 fuel (n / 2) + 1

/-- Floor of the base-2 logarithm of the fraction a / b, computed by
scaling into the naturals.  Correct whenever b ≤ 2 ^ 64 * a and
2 ^ 64 * a < 2 ^ 200 * b, which covers every quotient the progress
computation can see. -/
def ilog2Frac (a b : Nat) : ℤ :=
  (natLog2 200 ((a * 2 ^ 64) / b) : ℤ) - 64

/-- Round the fraction n / m to the nearest integer, ties to even: the
rounding used by IEEE-754 binary arithmetic. -/
def rheNat (n m : Nat) : Nat :=
  if 2 * (n % m) < m then n / m
  else if m < 2 * (n % m) then n / m + 1
  else if (n / m) % 2 = 0 then n / m else n / m + 1

/-- Round the positive fraction a / b to 24 significant binary digits
(round to nearest, ties to even), returned as a pair (mantissa, k) whose
value is mantissa * 2 ^ k: the result a binary32 division returns for an
exactly representable dividend and divisor. -/
def rnd32Frac (a b : Nat) : Nat × ℤ :=
  (if ilog2Frac a b ≤ 23 then rheNat (a * 2 ^ (23 - ilog2Frac a b).toNat) b
   else rheNat a (b * 2 ^ (ilog2Frac a b - 23).toNat),
   ilog2Frac a b - 23)

/-- The rational value of the rounded quotient returned by rnd32Frac;
used only to state and prove approximation lemmas. -/
def rnd32val (a b : Nat) : ℚ :=
  ((rnd32Frac a b).1 : ℚ) * 2 ^ (rnd32Frac a b).2

/-- Truncation toward zero of 100 times the rounded quotient a / b: the
int the C progress computation stores for nonnegative operands. -/
def pct (a b : Nat) : Nat :=
  if 0 ≤ (rnd32Frac a b).2 then
    100 * (rnd32Frac a b).1 * 2 ^ ((rnd32Frac a b).2).toNat
  else
    (100 * (rnd32Frac a b).1) / 2 ^ (-(rnd32Frac a b).2).toNat

/-- The progress percentage the data-event handler computes from the
cumulative downloaded byte count and the probed total size
(bytebeam_esp_hal.c line 66).  The division carries no guard in the C
code; a zero total makes the float quotient infinite or NaN and the
conversion to int undefined, modelled as none. -/
def computePercent (d t : ℤ) : Option ℤ :=
  if t = 0 then none
  else
    let p : ℤ := pct d.natAbs t.natAbs
    some (if d.sign * t.sign = -1 then -p else p)

/-! ### The file-scope counters and the HTTP event handlers -/

/-- The file-scope mutable counters of bytebeam_esp_hal.c that the OTA
path reads and writes (lines 15-19). -/
structure HalState where
  downloaded_data_len : ℤ
  ota_img_data_len : ℤ
  update_progress_percent : ℤ
  loop_var : ℤ
deriving DecidableEq, Repr

/-- One call to publish_action_status from the data-event handler:
the percentage sent and the status string ("Progress" or "Complete" in
the source; the error argument is always "Success"). -/
structure Publish where
  percent : ℤ
  status : String
deriving DecidableEq, Repr

/-- The HTTP_EVENT_ON_DATA branch of _http_event_handler
(bytebeam_esp_hal.c lines 63-84) for one received chunk of the given
length: accumulate the byte count, recompute the percentage, publish
when the percentage equals the throttle cursor loop_var (status
"Complete" when the cursor is at 100, otherwise "Progress"), advance the
cursor by 5 on a publish, and wrap a cursor of 105 back to 0.  Returns
none when the percentage computation is undefined (zero total). -/
def onData (s : HalState) (len : ℤ) : Option (HalState × List Publish) :=
  (computePercent (s.downloaded_data_len + len) s.ota_img_data_len).map fun p =>
    if p = s.loop_var then
      ({ downloaded_data_len := s.downloaded_data_len + len,
         ota_img_data_len := s.ota_img_data_len,
         update_progress_percent := p,
         loop_var := if s.loop_var + 5 = 105 then 0 else s.loop_var + 5 },
       [⟨p, if s.loop_var = 100 then "Complete" else "Progress"⟩])
    else
      ({ downloaded_data_len := s.downloaded_data_len + len,
         ota_img_data_len := s.ota_img_data_len,
         update_progress_percent := p,
         loop_var := if s.loop_var = 105 then 0 else s.loop_var }, [])

/-- Deliver a list of chunks to the data-event handler in order,
collecting every publish; the final state is none when a chunk hit the
undefined percentage computation. -/
def runChunks : HalState → List ℤ → List Publish × Option HalState
  | s, [] => ([], some s)
  | s, c :: cs =>
    match onData s c with
    | none => ([], none)
    | some (s', ps) =>
      let r := runChunks s' cs
      (ps ++ r.1, r.2)

/-- The counter resets at the start of bytebeam_hal_ota
(bytebeam_esp_hal.c lines 140-142): ota_img_data_len,
update_progress_percent and downloaded_data_len are zeroed; loop_var is
not touched. -/
def resetCounters (g : HalState) : HalState :=
  { g with ota_img_data_len := 0, update_progress_percent := 0,
           downloaded_data_len := 0 }

/-- The HTTP_EVENT_ON_DATA branch of _test_event_handler
(bytebeam_esp_hal.c lines 106-108), run over the chunks the probe pass
delivers: each adds its length to ota_img_data_len. -/
def probeAccumulate (g : HalState) (chunks : List ℤ) : HalState :=
  { g with ota_img_data_len := chunks.foldl (· + ·) g.ota_img_data_len }

/-- Observable outcome of one bytebeam_hal_ota call: the total size the
probe accumulated, every status publish the download produced, and the
final counter state (none when the undefined progress computation was
reached). -/
structure OtaOutcome where
  totalAfterProbe : ℤ
  publishes : List Publish
  final : Option HalState
deriving DecidableEq, Repr

/-- bytebeam_hal_ota (bytebeam_esp_hal.c lines 116-153): reset the three
counters, run the size-discovery pass (probeOk tells whether
esp_http_client_perform returned ESP_OK; the source consults it only to
log the content length), then call esp_https_ota unconditionally, which
drives _http_event_handler over the download chunks. -/
def bytebeam_hal_ota (g : HalState) (probeOk : Bool)
    (probeChunks dlChunks : List ℤ) : OtaOutcome :=
  let g2 := probeAccumulate (resetCounters g) probeChunks
  let r := runChunks g2 dlChunks
  ⟨g2.ota_img_data_len, r.1, r.2⟩

/-! ### The boot-time persisted-record path -/

/-- The persisted NVS keys the boot path reads and writes
(namespace "test_storage"): nvs_get_i32 either succeeds with a value or
fails with ESP_ERR_NVS_NOT_FOUND, modelled as an Option. -/
structure NvsState where
  update_flag : Option ℤ
  action_id_val : Option ℤ
deriving DecidableEq, Repr

/-- Observable side effects of bytebeam_hal_init relevant to the
persisted record: NVS writes, the durability barrier, and status
publishes (bytebeam_hal_init performs none, but the vocabulary makes
their absence expressible). -/
inductive BootEvent where
  | nvsSetFlag (v : ℤ)
  | nvsCommit
  | publish (p : Publish)
deriving DecidableEq, Repr

/-- Number of publish events in a boot trace. -/
def countPublishes (es : List BootEvent) : Nat :=
  es.countP fun e => match e with
    | .publish _ => true
    | _ => false

/-- Result of one bytebeam_hal_init call: the NVS state it leaves, the
ordered effect trace, the two file-scope globals it may set
(ota_update_completed, ota_action_id_str), and its return value. -/
structure BootResult where
  nvs : NvsState
  events : List BootEvent
  ota_update_completed : ℤ
  ota_action_id_str : String
  ret : ℤ
deriving DecidableEq, Repr

/-- bytebeam_hal_init (bytebeam_esp_hal.c lines 232-268), restricted to
the persisted-record logic (the MQTT client start that precedes it
involves no NVS access and no status publish).  When update_flag reads
as 1 the code zeroes the flag, writes it back, commits, then reads
action_id_val (ignoring the error code: when the key is absent the
stack variable keeps an arbitrary value, modelled by the junk
parameter), renders it with sprintf and sets ota_update_completed to 1.
When the flag reads as another value, or the key is absent
(ESP_ERR_NVS_NOT_FOUND), only a log line is emitted.  The function
returns 0 on every path.  prevCompleted and prevStr are the values the
globals held before the call. -/
def bytebeam_hal_init (nvs : NvsState) (junk : ℤ)
    (prevCompleted : ℤ) (prevStr : String) : BootResult :=
  match nvs.update_flag with
  | some flag =>
    if flag = 1 then
      { nvs := { nvs with update_flag := some 0 },
        events := [.nvsSetFlag 0, .nvsCommit],
        ota_update_completed := 1,
        ota_action_id_str := toString (nvs.action_id_val.getD junk),
        ret := 0 }
    else
      { nvs := nvs, events := [], ota_update_completed := prevCompleted,
        ota_action_id_str := prevStr, ret := 0 }
  | none =>
      { nvs := nvs, events := [], ota_update_completed := prevCompleted,
        ota_action_id_str := prevStr, ret := 0 }

/-! ### The action registry

The registry operations are declared in bytebeam_sdk.h
(bytebeam_add_action_handler, bytebeam_update_action_handler,
bytebeam_remove_action_handler) over the fixed array
action_funcs[BYTEBEAM_NUMBER_OF_ACTIONS] with
BYTEBEAM_NUMBER_OF_ACTIONS = 10, but their bodies are not part of the
source tree; the definitions below are modelled from the specification
text of section 4.1.  A slot is an Option (name, handler); handlers are
an abstract type. -/

/-- The registry error taxonomy of the specification. -/
inductive RegErr where
  | RegistryFull
  | DuplicateAction
  | ActionNotFound
deriving DecidableEq, Repr

/-- A registry table: a fixed-length sequence of slots, each empty or
holding a (name, handler) binding. -/
abbrev RegTable (α : Type) : Type := List (Option (String × α))

/-- The capacity constant BYTEBEAM_NUMBER_OF_ACTIONS from
bytebeam_sdk.h line 15. -/
def BYTEBEAM_NUMBER_OF_ACTIONS : Nat := 10

/-- The initial registry: every one of the 10 slots empty. -/
def initRegistry (α : Type) : RegTable α :=
  List.replicate BYTEBEAM_NUMBER_OF_ACTIONS none

/-- True when no empty slot remains. -/
def slotsFull {α : Type} (l : RegTable α) : Bool :=
  l.all Option.isSome

/-- True when some occupied slot carries the given name. -/
def nameOccupied {α : Type} (l : RegTable α) (n : String) : Bool :=
  l.any fun s => match s with
    | some (m, _) => m = n
    | none => false

/-- Number of occupied slots. -/
def occupiedCount {α : Type} (l : RegTable α) : Nat :=
  l.countP Option.isSome

/-- Occupy the first empty slot in scan order (identity when no slot is
empty, a case the callers exclude). -/
def addFirstFit {α : Type} : RegTable α → String → α → RegTable α
  | [], _, _ => []
  | none :: rest, n, h => some (n, h) :: rest
  | some e :: rest, n, h => some e :: addFirstFit rest n h

/-- Modelled from the spec: add(name, handler) of section 4.1, whose
implementation (bytebeam_add_action_handler) is not in the source tree.
Fails with RegistryFull if no empty slot remains; fails with
DuplicateAction if the name already occupies a slot; otherwise occupies
the first empty slot in scan order.  The table is returned alongside the
status so that error paths exhibit their effect on it. -/
def addAction {α : Type} (l : RegTable α) (n : String) (h : α) :
    Except RegErr Unit × RegTable α :=
  if slotsFull l then (.error .RegistryFull, l)
  else if nameOccupied l n then (.error .DuplicateAction, l)
  else (.ok (), addFirstFit l n h)

/-- Modelled from the spec: update(name, new_handler) of section 4.1,
whose implementation (bytebeam_update_action_handler) is not in the
source tree.  Fails with ActionNotFound if the name is absent; otherwise
replaces the handler in place, preserving slot position. -/
def updateAction {α : Type} (l : RegTable α) (n : String) (h : α) :
    Except RegErr Unit × RegTable α :=
  if nameOccupied l n then
    (.ok (), l.map fun s => match s with
      | some (m, g) => if m = n then some (m, h) else some (m, g)
      | none => none)
  else (.error .ActionNotFound, l)

/-- Modelled from the spec: remove(name) of section 4.1, whose
implementation (bytebeam_remove_action_handler) is not in the source
tree.  Fails with ActionNotFound if the name is absent; otherwise clears
the slot, freeing it for reuse, never compacting or reordering other
slots. -/
def removeAction {α : Type} (l : RegTable α) (n : String) :
    Except RegErr Unit × RegTable α :=
  if nameOccupied l n then
    (.ok (), l.map fun s => match s with
      | some (m, g) => if m = n then none else some (m, g)
      | none => none)
  else (.error .ActionNotFound, l)

/-! ### Helper lemmas -/

/-- The percentage computation succeeds exactly on a nonzero total. -/
lemma computePercent_some (d t : ℤ) (h : t ≠ 0) :
    (computePercent d t).isSome = true := by
  simp [computePercent, h]

/-- A zero total makes the percentage computation undefined. -/
lemma computePercent_none (d : ℤ) : computePercent d 0 = none := rfl

/-- Full characterization of a successful data event. -/
lemma onData_spec (s : HalState) (c : ℤ) (s' : HalState) (ps : List Publish)
    (h : onData s c = some (s', ps)) :
    ∃ p, computePercent (s.downloaded_data_len + c) s.ota_img_data_len = some p ∧
      s'.downloaded_data_len = s.downloaded_data_len + c ∧
      s'.ota_img_data_len = s.ota_img_data_len ∧
      s'.update_progress_percent = p ∧
      (p = s.loop_var →
        ps = [⟨p, if s.loop_var = 100 then "Complete" else "Progress"⟩] ∧
        s'.loop_var = if s.loop_var + 5 = 105 then 0 else s.loop_var + 5) ∧
      (p ≠ s.loop_var →
        ps = [] ∧ s'.loop_var = if s.loop_var = 105 then 0 else s.loop_var) := by
  cases hcp : computePercent (s.downloaded_data_len + c) s.ota_img_data_len with
  | none => rw [onData, hcp] at h; simp at h
  | some p =>
    rw [onData, hcp] at h
    simp only [Option.map_some'] at h
    rw [Option.some.injEq] at h
    refine ⟨p, rfl, ?_⟩
    by_cases hp : p = s.loop_var
    · rw [if_pos hp, Prod.mk.injEq] at h
      obtain ⟨h1, h2⟩ := h
      subst h1
      subst h2
      exact ⟨rfl, rfl, rfl, fun _ => ⟨rfl, rfl⟩, fun hne => absurd hp hne⟩
    · rw [if_neg hp, Prod.mk.injEq] at h
      obtain ⟨h1, h2⟩ := h
      subst h1
      subst h2
      exact ⟨rfl, rfl, rfl, fun he => absurd he hp, fun _ => ⟨rfl, rfl⟩⟩

/-- bytebeam_hal_init never publishes a status message itself. -/
lemma hal_init_no_publish (nvs : NvsState) (junk pc : ℤ) (pstr : String) :
    countPublishes (bytebeam_hal_init nvs junk pc pstr).events = 0 := by
  rcases nvs with ⟨uf, aid⟩
  cases uf with
  | none => rfl
  | some f =>
    by_cases hf : f = 1
    · simp [bytebeam_hal_init, hf, countPublishes]
    · simp [bytebeam_hal_init, hf, countPublishes]

/-- Every publish the data-event handler emits carries status "Progress"
or "Complete"; there is no failure publish in the OTA download path. -/
lemma onData_status (s : HalState) (c : ℤ) (s' : HalState) (ps : List Publish)
    (h : onData s c = some (s', ps)) :
    ∀ p ∈ ps, p.status = "Progress" ∨ p.status = "Complete" := by
  obtain ⟨q, _, _, _, _, hpub, hskip⟩ := onData_spec s c s' ps h
  by_cases hq : q = s.loop_var
  · obtain ⟨hps, _⟩ := hpub hq
    subst hps
    intro p hp
    rw [List.mem_singleton] at hp
    subst hp
    by_cases h100 : s.loop_var = 100
    · rw [if_pos h100]
      exact Or.inr rfl
    · rw [if_neg h100]
      exact Or.inl rfl
  · obtain ⟨hps, _⟩ := hskip hq
    subst hps
    intro p hp
    exact absurd hp (List.not_mem_nil _)

/-- Statuses along a whole chunk sequence. -/
lemma runChunks_status : ∀ (cs : List ℤ) (s : HalState) (p : Publish),
    p ∈ (runChunks s cs).1 → p.status = "Progress" ∨ p.status = "Complete" := by
  intro cs
  induction cs with
  | nil =>
    intro s p hp
    exact absurd hp (List.not_mem_nil _)
  | cons c cs ih =>
    intro s p hp
    cases hod : onData s c with
    | none =>
      simp only [runChunks, hod] at hp
      exact absurd hp (List.not_mem_nil _)
    | some r =>
      obtain ⟨s', ps⟩ := r
      simp only [runChunks, hod] at hp
      rw [List.mem_append] at hp
      cases hp with
      | inl hl => exact onData_status s c s' ps hod p hl
      | inr hr => exact ih s' p hr

/-! ### Claims -/

/-- C1, counterexample: with total size 1000 delivered in chunks of 137
bytes (cumulative 137/274/411/548/685/822/959/1000, percentages
13/27/41/54/68/82/95/100), the claim demands the thresholds 5,10,...,100
each be published exactly once; the code publishes nothing at all,
because the equality guard percentage == loop_var never fires when the
percentage skips past the cursor. -/
theorem c1_counterexample :
    (runChunks ⟨0, 1000, 0, 0⟩ [137, 137, 137, 137, 137, 137, 137, 41]).1 = [] ∧
    (runChunks ⟨0, 1000, 0, 0⟩ [137, 137, 137, 137, 137, 137, 137, 41]).2 =
      some ⟨1000, 1000, 100, 0⟩ := by
  decide

/-- C1, amended: a progress message is published exactly when the newly
computed percentage is equal to the throttle cursor loop_var (not when
it has advanced past it); the published percentage is the cursor value,
and the cursor then advances by 5 (wrapping 105 to 0); when the
percentage skips past the cursor, nothing is published and the cursor
does not move; in particular the 1000/137 scenario publishes nothing. -/
theorem c1_amended :
    ((runChunks ⟨0, 1000, 0, 0⟩ [137, 137, 137, 137, 137, 137, 137, 41]).1 = []) ∧
    (∀ (s : HalState) (c : ℤ) (s' : HalState) (ps : List Publish),
      onData s c = some (s', ps) →
      ((ps ≠ [] ↔ computePercent (s.downloaded_data_len + c) s.ota_img_data_len
          = some s.loop_var) ∧
       (∀ p ∈ ps, p.percent = s.loop_var) ∧
       (ps ≠ [] → s'.loop_var = if s.loop_var + 5 = 105 then 0 else s.loop_var + 5) ∧
       (ps = [] → s'.loop_var = if s.loop_var = 105 then 0 else s.loop_var))) := by
  constructor
  · decide
  · intro s c s' ps h
    obtain ⟨p, hcp, _, _, _, hpub, hskip⟩ := onData_spec s c s' ps h
    by_cases hp : p = s.loop_var
    · obtain ⟨hps, hlv⟩ := hpub hp
      subst hp
      refine ⟨⟨fun _ => hcp, fun _ => by simp [hps]⟩, ?_, fun _ => hlv, ?_⟩
      · intro q hq
        rw [hps] at hq
        simp at hq
        simp [hq]
      · intro he
        rw [hps] at he
        simp at he
    · obtain ⟨hps, hlv⟩ := hskip hp
      subst hps
      refine ⟨⟨fun hne => absurd rfl hne, fun hcv => ?_⟩, by simp, by simp, fun _ => hlv⟩
      · rw [hcp] at hcv
        exact absurd (Option.some.inj hcv) hp

/-- C1, witness for the amended theorem: a chunk of 1 byte out of 1000
computes percentage 0, equal to the initial cursor, so exactly one
publish of the cursor value occurs. -/
theorem c1_witness :
    onData ⟨0, 1000, 0, 0⟩ 1 = some (⟨1, 1000, 0, 5⟩, [⟨0, "Progress"⟩]) ∧
    (([⟨0, "Progress"⟩] : List Publish) ≠ [] ↔
      computePercent ((0 : ℤ) + 1) 1000 = some 0) := by
  have h : onData ⟨0, 1000, 0, 0⟩ 1 = some (⟨1, 1000, 0, 5⟩, [⟨0, "Progress"⟩]) := by
    decide
  exact ⟨h, (c1_amended.2 ⟨0, 1000, 0, 0⟩ 1 _ _ h).1⟩

/-- C4, counterexample: a download of total 1024 whose cumulative chunk
boundaries hit every multiple of 5 exactly publishes the status
"Complete" at 100 percent from inside the download handler, before any
restart; the claim that the completed confirmation is emitted only on
the post-boot path is false. -/
theorem c4_counterexample :
    (runChunks ⟨0, 1024, 0, 0⟩
        [1, 51, 51, 51, 51, 51, 52, 51, 51, 51, 51, 52,
         51, 51, 51, 51, 52, 51, 51, 51, 51]).1 =
      (List.range 20).map (fun i => ⟨5 * (i : ℤ), "Progress"⟩) ++
        [⟨100, "Complete"⟩] := by
  decide

/-- C4, amended: the download handler itself emits a "Complete" status
publish, exactly when the computed percentage and the cursor are both
100, before any restart; the post-boot path bytebeam_hal_init publishes
nothing itself, it only records that a completion publish is due. -/
theorem c4_amended :
    (∀ (s : HalState) (c : ℤ) (s' : HalState) (ps : List Publish) (p : ℤ),
      onData s c = some (s', ps) →
      ((⟨p, "Complete"⟩ : Publish) ∈ ps ↔
        (p = 100 ∧ s.loop_var = 100 ∧
         computePercent (s.downloaded_data_len + c) s.ota_img_data_len = some 100))) ∧
    (∀ (nvs : NvsState) (junk pc : ℤ) (pstr : String),
      countPublishes (bytebeam_hal_init nvs junk pc pstr).events = 0) := by
  constructor
  · intro s c s' ps p h
    obtain ⟨q, hcp, _, _, _, hpub, hskip⟩ := onData_spec s c s' ps h
    by_cases hq : q = s.loop_var
    · obtain ⟨hps, _⟩ := hpub hq
      subst hps
      by_cases h100 : s.loop_var = 100
      · rw [if_pos h100]
        constructor
        · intro hm
          rw [List.mem_singleton, Publish.mk.injEq] at hm
          exact ⟨by rw [hm.1, hq, h100], h100, by rw [hcp, hq, h100]⟩
        · rintro ⟨hp1, -, -⟩
          rw [List.mem_singleton, Publish.mk.injEq]
          exact ⟨by rw [hp1, hq, h100], rfl⟩
      · rw [if_neg h100]
        constructor
        · intro hm
          rw [List.mem_singleton, Publish.mk.injEq] at hm
          exact absurd hm.2.symm (by decide)
        · rintro ⟨-, habs, -⟩
          exact absurd habs h100
    · obtain ⟨hps, _⟩ := hskip hq
      subst hps
      constructor
      · intro hm
        exact absurd hm (List.not_mem_nil _)
      · rintro ⟨-, h100, hcv⟩
        rw [hcp, Option.some.injEq] at hcv
        exact (hq (by rw [hcv, h100])).elim
  · exact hal_init_no_publish

/-- C4, witness for the amended theorem: the final 51-byte chunk of the
1024-byte download, arriving with the cursor at 100, publishes exactly
one "Complete" status; and a boot with a pending record publishes
nothing from bytebeam_hal_init. -/
theorem c4_witness :
    onData ⟨973, 1024, 95, 100⟩ 51 = some (⟨1024, 1024, 100, 0⟩, [⟨100, "Complete"⟩]) ∧
    ((⟨100, "Complete"⟩ : Publish) ∈ ([⟨100, "Complete"⟩] : List Publish) ↔
      ((100 : ℤ) = 100 ∧ (100 : ℤ) = 100 ∧
        computePercent ((973 : ℤ) + 51) 1024 = some 100)) ∧
    countPublishes (bytebeam_hal_init ⟨some 1, some 42⟩ 0 0 "").events = 0 := by
  have h : onData ⟨973, 1024, 95, 100⟩ 51 =
      some (⟨1024, 1024, 100, 0⟩, [⟨100, "Complete"⟩]) := by decide
  exact ⟨h, c4_amended.1 ⟨973, 1024, 95, 100⟩ 51 _ _ 100 h,
    c4_amended.2 ⟨some 1, some 42⟩ 0 0 ""⟩

/-- C9: the progress division carries no guard against a zero total:
with ota_img_data_len = 0 the data branch is undefined (none), it is
well-defined for every nonzero total, and the branch is reachable with
a zero total, since a size-discovery pass that delivers no data leaves
ota_img_data_len = 0 and the download is still started. -/
theorem c9_unguarded_division :
    (∀ d : ℤ, computePercent d 0 = none) ∧
    (∀ d t : ℤ, t ≠ 0 → (computePercent d t).isSome = true) ∧
    (∀ s : HalState, s.ota_img_data_len = 0 → ∀ c : ℤ, onData s c = none) ∧
    (bytebeam_hal_ota ⟨0, 0, 0, 0⟩ true [] [137]).totalAfterProbe = 0 ∧
    (bytebeam_hal_ota ⟨0, 0, 0, 0⟩ true [] [137]).final = none := by
  refine ⟨fun d => rfl, fun d t h => computePercent_some d t h, ?_, by decide, by decide⟩
  intro s hz c
  rw [onData, hz, computePercent_none]
  rfl

/-- C9, witness: the undefined case at total 0 and the defined case at
total 1000, at concrete inputs. -/
theorem c9_witness :
    computePercent 137 0 = none ∧ (computePercent 137 1000).isSome = true ∧
    onData ⟨0, 0, 7, 0⟩ 137 = none := by
  exact ⟨c9_unguarded_division.1 137,
    c9_unguarded_division.2.1 137 1000 (by decide),
    c9_unguarded_division.2.2.1 ⟨0, 0, 7, 0⟩ rfl 137⟩

/-- C10: bytebeam_hal_ota zeroes ota_img_data_len,
update_progress_percent and downloaded_data_len at the start of every
call but leaves loop_var unchanged (also after the probe pass
accumulates the new total), and within a run whose cursor lies in
[0, 100] the cursor returns to 0 only by reaching 105, that is,
immediately after a publish of "Complete" at 100. -/
theorem c10_loop_var_frame :
    (∀ g : HalState, resetCounters g = ⟨0, 0, 0, g.loop_var⟩) ∧
    (∀ (g : HalState) (pc : List ℤ),
      probeAccumulate (resetCounters g) pc =
        ⟨0, pc.foldl (· + ·) 0, 0, g.loop_var⟩) ∧
    (∀ (s : HalState) (c : ℤ) (s' : HalState) (ps : List Publish),
      onData s c = some (s', ps) → 0 ≤ s.loop_var → s.loop_var ≤ 100 →
      s.loop_var ≠ 0 → s'.loop_var = 0 →
      s.loop_var = 100 ∧ ps = [⟨100, "Complete"⟩]) := by
  refine ⟨fun g => rfl, fun g pc => rfl, ?_⟩
  intro s c s' ps h h0 h100 hne hz
  obtain ⟨p, hcp, _, _, _, hpub, hskip⟩ := onData_spec s c s' ps h
  by_cases hp : p = s.loop_var
  · obtain ⟨hps, hlv⟩ := hpub hp
    rw [hlv] at hz
    by_cases hw : s.loop_var + 5 = 105
    · have hv : s.loop_var = 100 := by omega
      exact ⟨hv, by rw [hps, hp, hv]; simp⟩
    · rw [if_neg hw] at hz
      omega
  · obtain ⟨_, hlv⟩ := hskip hp
    rw [hlv] at hz
    by_cases hw : s.loop_var = 105
    · omega
    · rw [if_neg hw] at hz
      exact absurd hz hne

/-- C10, witness: the reset of an attempt whose previous run stopped at
cursor 35 keeps 35, and the final chunk of the 1024 scenario drives the
cursor from 100 to 0 through the Complete publish. -/
theorem c10_witness :
    resetCounters ⟨959, 1000, 95, 35⟩ = ⟨0, 0, 0, 35⟩ ∧
    probeAccumulate (resetCounters ⟨959, 1000, 95, 35⟩) [512, 512] =
      ⟨0, 1024, 0, 35⟩ ∧
    ((100 : ℤ) = 100 ∧
      ([⟨100, "Complete"⟩] : List Publish) = [⟨100, "Complete"⟩]) := by
  refine ⟨c10_loop_var_frame.1 ⟨959, 1000, 95, 35⟩, ?_, ?_⟩
  · have := c10_loop_var_frame.2.1 ⟨959, 1000, 95, 35⟩ [512, 512]
    simpa using this
  · have h : onData ⟨973, 1024, 95, 100⟩ 51 =
        some (⟨1024, 1024, 100, 0⟩, [⟨100, "Complete"⟩]) := by decide
    exact c10_loop_var_frame.2.2 ⟨973, 1024, 95, 100⟩ 51 _ _ h
      (by decide) (by decide) (by decide) rfl

/-- C2, counterexample: on a boot with the persisted record
(update_flag = 1, action_id_val = 42), bytebeam_hal_init performs no
publish at all; it clears the flag and durably commits the clearing as
its only externally visible actions, so the record is cleared before,
not after, any "completed" publish (which later code performs based on
ota_update_completed). -/
theorem c2_counterexample :
    bytebeam_hal_init ⟨some 1, some 42⟩ 0 0 "" =
      ⟨⟨some 0, some 42⟩, [.nvsSetFlag 0, .nvsCommit], 1, "42", 0⟩ ∧
    countPublishes (bytebeam_hal_init ⟨some 1, some 42⟩ 0 0 "").events = 0 := by
  constructor
  · rfl
  · rfl

/-- C2, amended: on every boot where the persisted update_flag reads as
1, bytebeam_hal_init first clears the record (writes update_flag = 0 and
commits durably), publishing nothing itself, and then marks completion
as due by setting ota_update_completed to 1 and rendering the stored
action id to ota_action_id_str; the "completed" publish for that id can
therefore only happen after the clearing.  On a boot where the flag
reads as another value nothing is written and nothing published. -/
theorem c2_amended :
    (∀ (nvs : NvsState) (junk pc : ℤ) (pstr : String) (a : ℤ),
      nvs.update_flag = some 1 → nvs.action_id_val = some a →
      bytebeam_hal_init nvs junk pc pstr =
        ⟨{ nvs with update_flag := some 0 },
         [.nvsSetFlag 0, .nvsCommit], 1, toString a, 0⟩) ∧
    (∀ (nvs : NvsState) (junk pc : ℤ) (pstr : String) (f : ℤ),
      nvs.update_flag = some f → f ≠ 1 →
      bytebeam_hal_init nvs junk pc pstr = ⟨nvs, [], pc, pstr, 0⟩) ∧
    (∀ (nvs : NvsState) (junk pc : ℤ) (pstr : String),
      countPublishes (bytebeam_hal_init nvs junk pc pstr).events = 0) := by
  refine ⟨?_, ?_, hal_init_no_publish⟩
  · intro nvs junk pc pstr a hflag hid
    rcases nvs with ⟨uf, aid⟩
    simp only at hflag hid
    subst hflag
    subst hid
    simp [bytebeam_hal_init]
  · intro nvs junk pc pstr f hflag hne
    rcases nvs with ⟨uf, aid⟩
    simp only at hflag
    subst hflag
    simp [bytebeam_hal_init, hne]

/-- C2, witness for the amended theorem at the concrete record
(update_flag = 1, action_id_val = 42) and at a boot with flag 0. -/
theorem c2_witness :
    bytebeam_hal_init ⟨some 1, some 42⟩ 7 0 "prev" =
      ⟨⟨some 0, some 42⟩, [.nvsSetFlag 0, .nvsCommit], 1, toString (42 : ℤ), 0⟩ ∧
    bytebeam_hal_init ⟨some 0, some 42⟩ 7 0 "prev" =
      ⟨⟨some 0, some 42⟩, [], 0, "prev", 0⟩ ∧
    countPublishes (bytebeam_hal_init ⟨some 1, some 42⟩ 7 0 "prev").events = 0 := by
  exact ⟨c2_amended.1 ⟨some 1, some 42⟩ 7 0 "prev" 42 rfl rfl,
    c2_amended.2.1 ⟨some 0, some 42⟩ 7 0 "prev" 0 rfl (by decide),
    c2_amended.2.2 ⟨some 1, some 42⟩ 7 0 "prev"⟩

/-- C8: when the update-pending key is absent (nvs_get_i32 returns
ESP_ERR_NVS_NOT_FOUND), bytebeam_hal_init publishes nothing, writes
nothing, leaves the store and globals untouched, and still returns 0
(success): the absence of a record is the normal path, not a failure. -/
theorem c8_notfound_nonfatal :
    ∀ (aid : Option ℤ) (junk pc : ℤ) (pstr : String),
      bytebeam_hal_init ⟨none, aid⟩ junk pc pstr = ⟨⟨none, aid⟩, [], pc, pstr, 0⟩ ∧
      countPublishes (bytebeam_hal_init ⟨none, aid⟩ junk pc pstr).events = 0 ∧
      (bytebeam_hal_init ⟨none, aid⟩ junk pc pstr).ret = 0 := by
  intro aid junk pc pstr
  exact ⟨rfl, rfl, rfl⟩

/-- C3, counterexample: with a failed size-discovery pass
(probeOk = false, here after it had accumulated 1024 bytes), the
download is still entered — the download handler processes a 512-byte
chunk and advances the counters — and no failure is reported: the
publish list is empty.  The claim that a probe failure leads to a Failed
report and the download is never begun is false. -/
theorem c3_counterexample :
    bytebeam_hal_ota ⟨0, 0, 0, 0⟩ false [1024] [512] =
      ⟨1024, [], some ⟨512, 1024, 50, 0⟩⟩ := by
  decide

/-- C3, amended: bytebeam_hal_ota ignores the outcome of the probe pass
except for a log line: the result is identical whether the probe
succeeded or failed, the download phase is entered unconditionally
(even with a zero total, where the progress computation is undefined),
and no failure status is ever published by this function — every
publish carries "Progress" or "Complete". -/
theorem c3_amended :
    (∀ (g : HalState) (pc dc : List ℤ),
      bytebeam_hal_ota g true pc dc = bytebeam_hal_ota g false pc dc) ∧
    (∀ (g : HalState) (ok : Bool) (pc dc : List ℤ) (p : Publish),
      p ∈ (bytebeam_hal_ota g ok pc dc).publishes →
      p.status = "Progress" ∨ p.status = "Complete") := by
  constructor
  · intro g pc dc
    rfl
  · intro g ok pc dc p hp
    exact runChunks_status dc (probeAccumulate (resetCounters g) pc) p hp

/-- C3, witness for the amended theorem: a concrete run whose download
publishes percentage 0 with status "Progress". -/
theorem c3_witness :
    bytebeam_hal_ota ⟨0, 0, 0, 0⟩ true [1024] [1] =
      bytebeam_hal_ota ⟨0, 0, 0, 0⟩ false [1024] [1] ∧
    ((⟨0, "Progress"⟩ : Publish).status = "Progress" ∨
     (⟨0, "Progress"⟩ : Publish).status = "Complete") := by
  refine ⟨c3_amended.1 ⟨0, 0, 0, 0⟩ [1024] [1], ?_⟩
  refine c3_amended.2 ⟨0, 0, 0, 0⟩ true [1024] [1] ⟨0, "Progress"⟩ ?_
  decide

/-! ### Registry lemmas -/

instance : DecidableEq (Except RegErr Unit) := fun a b =>
  match a, b with
  | .error e, .error f =>
    match decEq e f with
    | isTrue h => isTrue (congrArg Except.error h)
    | isFalse h => isFalse fun hc => h (Except.error.inj hc)
  | .ok x, .ok y => isTrue (congrArg Except.ok (Subsingleton.elim x y))
  | .error _, .ok _ => isFalse fun hc => Except.noConfusion hc
  | .ok _, .error _ => isFalse fun hc => Except.noConfusion hc

/-- addFirstFit never changes the table length. -/
lemma addFirstFit_length {α : Type} :
    ∀ (l : RegTable α) (n : String) (h : α),
      (addFirstFit l n h).length = l.length := by
  intro l
  induction l with
  | nil => intro n h; rfl
  | cons s rest ih =>
    intro n h
    cases s with
    | none => rfl
    | some e => simp [addFirstFit, ih]

/-- addAction never changes the table length, on success or failure. -/
lemma addAction_length {α : Type} (l : RegTable α) (n : String) (h : α) :
    ((addAction l n h).2).length = l.length := by
  rw [addAction]
  split
  · rfl
  · split
    · rfl
    · exact addFirstFit_length l n h

/-- A fold of adds never changes the table length. -/
lemma addFold_length {α : Type} :
    ∀ (ops : List (String × α)) (l : RegTable α),
      ((ops.foldl (fun t nh => (addAction t nh.1 nh.2).2) l)).length = l.length := by
  intro ops
  induction ops with
  | nil => intro l; rfl
  | cons op rest ih =>
    intro l
    rw [List.foldl_cons, ih, addAction_length]

/-- The number of occupied slots never exceeds the table length. -/
lemma occupiedCount_le_length {α : Type} (l : RegTable α) :
    occupiedCount l ≤ l.length :=
  List.countP_le_length _

/-- When the table has an empty slot, addFirstFit writes the binding
into the first empty slot in scan order and leaves every other slot
unchanged. -/
lemma addFirstFit_set {α : Type} :
    ∀ (l : RegTable α) (n : String) (h : α), slotsFull l = false →
      addFirstFit l n h = l.set (l.findIdx fun s => s.isNone) (some (n, h)) := by
  intro l
  induction l with
  | nil => intro n h hf; simp [slotsFull] at hf
  | cons s rest ih =>
    intro n h hf
    cases s with
    | none => simp [addFirstFit, List.findIdx_cons]
    | some e =>
      have hrest : slotsFull rest = false := by
        simpa [slotsFull] using hf
      simp [addFirstFit, List.findIdx_cons, ih n h hrest]

/-- C6: the add operation of the registry (capacity
BYTEBEAM_NUMBER_OF_ACTIONS = 10): it fails with RegistryFull when no
empty slot remains, fails with DuplicateAction when the name already
occupies a slot, and otherwise succeeds, occupying the first empty slot
in scan order; along any sequence of adds from the empty registry the
number of occupied slots never exceeds 10, and after ten successful
distinct-name adds the eleventh add fails with RegistryFull and leaves
the table unchanged. -/
theorem c6_registry_add :
    (∀ (α : Type) (l : RegTable α) (n : String) (h : α),
      slotsFull l = true → addAction l n h = (.error .RegistryFull, l)) ∧
    (∀ (α : Type) (l : RegTable α) (n : String) (h : α),
      slotsFull l = false → nameOccupied l n = true →
      addAction l n h = (.error .DuplicateAction, l)) ∧
    (∀ (α : Type) (l : RegTable α) (n : String) (h : α),
      slotsFull l = false → nameOccupied l n = false →
      addAction l n h =
        (.ok (), l.set (l.findIdx fun s => s.isNone) (some (n, h)))) ∧
    (∀ (α : Type) (ops : List (String × α)),
      occupiedCount (ops.foldl (fun t nh => (addAction t nh.1 nh.2).2)
        (initRegistry α)) ≤ BYTEBEAM_NUMBER_OF_ACTIONS) ∧
    (addAction ((List.range 10).foldl
        (fun t i => (addAction t (toString i) i).2) (initRegistry Nat)) "ten" 10 =
      (.error .RegistryFull,
        (List.range 10).foldl
          (fun t i => (addAction t (toString i) i).2) (initRegistry Nat))) := by
  refine ⟨?_, ?_, ?_, ?_, by decide⟩
  · intro α l n h hf
    rw [addAction, if_pos hf]
  · intro α l n h hf ho
    rw [addAction, if_neg (by rw [hf]; exact Bool.false_ne_true), if_pos ho]
  · intro α l n h hf ho
    rw [addAction, if_neg (by rw [hf]; exact Bool.false_ne_true),
      if_neg (by rw [ho]; exact Bool.false_ne_true),
      addFirstFit_set l n h hf]
  · intro α ops
    calc occupiedCount (ops.foldl (fun t nh => (addAction t nh.1 nh.2).2)
          (initRegistry α))
        ≤ ((ops.foldl (fun t nh => (addAction t nh.1 nh.2).2)
            (initRegistry α))).length := occupiedCount_le_length _
      _ = (initRegistry α).length := addFold_length ops (initRegistry α)
      _ = BYTEBEAM_NUMBER_OF_ACTIONS := List.length_replicate _ _

/-- C6, witness: the full-table failure, the duplicate failure and a
first-fit success at concrete tables. -/
theorem c6_witness :
    addAction (List.replicate 10 (some ("a", 0))) "b" 1 =
      (.error .RegistryFull, List.replicate 10 (some ("a", (0 : Nat)))) ∧
    addAction [some ("a", 0), none] "a" 1 =
      (.error .DuplicateAction, [some ("a", (0 : Nat)), none]) ∧
    addAction [some ("a", 0), none] "b" 1 =
      (.ok (), ([some ("a", 0), none] : RegTable Nat).set
        (([some ("a", 0), none] : RegTable Nat).findIdx fun s => s.isNone)
        (some ("b", 1))) := by
  exact ⟨c6_registry_add.1 Nat _ "b" 1 (by decide),
    c6_registry_add.2.1 Nat _ "a" 1 (by decide) (by decide),
    c6_registry_add.2.2.1 Nat _ "b" 1 (by decide) (by decide)⟩

/-- C7: every failing registry operation is atomic: whenever add, update
or remove returns an error (full table, duplicate name, or absent name),
the table returned alongside the error is exactly the input table. -/
theorem c7_error_atomicity :
    (∀ (α : Type) (l : RegTable α) (n : String) (h : α) (e : RegErr),
      (addAction l n h).1 = .error e → (addAction l n h).2 = l) ∧
    (∀ (α : Type) (l : RegTable α) (n : String) (h : α) (e : RegErr),
      (updateAction l n h).1 = .error e → (updateAction l n h).2 = l) ∧
    (∀ (α : Type) (l : RegTable α) (n : String) (e : RegErr),
      (removeAction l n).1 = .error e → (removeAction l n).2 = l) := by
  refine ⟨?_, ?_, ?_⟩
  · intro α l n h e herr
    by_cases hf : slotsFull l = true
    · rw [addAction, if_pos hf]
    · by_cases ho : nameOccupied l n = true
      · rw [addAction, if_neg hf, if_pos ho]
      · rw [addAction, if_neg hf, if_neg ho] at herr
        exact absurd herr (by simp)
  · intro α l n h e herr
    by_cases ho : nameOccupied l n = true
    · rw [updateAction, if_pos ho] at herr
      exact absurd herr (by simp)
    · rw [updateAction, if_neg ho]
  · intro α l n e herr
    by_cases ho : nameOccupied l n = true
    · rw [removeAction, if_pos ho] at herr
      exact absurd herr (by simp)
    · rw [removeAction, if_neg ho]

/-- C7, witness: the three error paths at concrete tables. -/
theorem c7_witness :
    (addAction (List.replicate 10 (some ("a", 0))) "b" (1 : Nat)).2 =
      List.replicate 10 (some ("a", 0)) ∧
    (updateAction (initRegistry Nat) "x" 5).2 = initRegistry Nat ∧
    (removeAction (initRegistry Nat) "x").2 = initRegistry Nat := by
  exact ⟨c7_error_atomicity.1 Nat _ "b" 1 .RegistryFull (by decide),
    c7_error_atomicity.2.1 Nat _ "x" 5 .ActionNotFound (by decide),
    c7_error_atomicity.2.2 Nat _ "x" .ActionNotFound (by decide)⟩

/-! ### Accuracy of the float model

The lemmas below bound the rounded 24-bit quotient against the exact
rational quotient, leading to the amended form of the percentage claim. -/

/-- natLog2 computes the floor of the base-2 logarithm when given
enough fuel. -/
lemma natLog2_spec : ∀ (fuel n : Nat), 0 < n → n < 2 ^ fuel →
    2 ^ natLog2 fuel n ≤ n ∧ n < 2 ^ (natLog2 fuel n + 1) := by
  intro fuel
  induction fuel with
  | zero =>
    intro n hn hlt
    simp at hlt
    omega
  | succ fuel ih =>
    intro n hn hlt
    by_cases h1 : n ≤ 1
    · have hn1 : n = 1 := by omega
      subst hn1
      rw [natLog2, if_pos (by omega)]
      constructor
      · exact le_refl 1
      · norm_num
    · have h2 : 2 ≤ n := by omega
      have hdpos : 0 < n / 2 := Nat.div_pos h2 (by norm_num)
      have hdlt : n / 2 < 2 ^ fuel := by
        rw [Nat.div_lt_iff_lt_mul (by norm_num)]
        rw [pow_succ] at hlt
        exact hlt
      obtain ⟨hlo, hhi⟩ := ih (n / 2) hdpos hdlt
      rw [natLog2, if_neg h1]
      have hmod : n % 2 < 2 := Nat.mod_lt n (by norm_num)
      have hdm : 2 * (n / 2) + n % 2 = n := Nat.div_add_mod n 2
      constructor
      · rw [pow_succ]
        omega
      · rw [pow_succ, pow_succ] at *
        omega

/-- ilog2Frac computes the floor of the base-2 logarithm of a / b for
the operand sizes the progress computation can produce. -/
lemma ilog2Frac_spec (a b : Nat) (ha : 0 < a) (hb : 0 < b)
    (ha24 : a ≤ 2 ^ 24) (hb24 : b ≤ 2 ^ 24) :
    (2 : ℚ) ^ ilog2Frac a b ≤ (a : ℚ) / b ∧
    (a : ℚ) / b < 2 ^ (ilog2Frac a b + 1) := by
  set M := (a * 2 ^ 64) / b with hM
  have hM1 : 1 ≤ M := by
    rw [hM, Nat.one_le_div_iff hb]
    calc b ≤ 2 ^ 24 := hb24
      _ ≤ 2 ^ 64 := by norm_num
      _ ≤ a * 2 ^ 64 := by nlinarith
  have hMlt : M < 2 ^ 200 := by
    calc M ≤ a * 2 ^ 64 := Nat.div_le_self _ _
      _ ≤ 2 ^ 24 * 2 ^ 64 := by nlinarith
      _ < 2 ^ 200 := by norm_num
  obtain ⟨hlo, hhi⟩ := natLog2_spec 200 M (by omega) hMlt
  set k := natLog2 200 M with hk
  -- bridge the Nat division to ℚ
  have hbq : (0 : ℚ) < (b : ℚ) := by exact_mod_cast hb
  have hMle : (M : ℚ) * b ≤ (a : ℚ) * 2 ^ 64 := by
    have := Nat.div_mul_le_self (a * 2 ^ 64) b
    calc (M : ℚ) * b = ((M * b : Nat) : ℚ) := by push_cast; ring
      _ ≤ ((a * 2 ^ 64 : Nat) : ℚ) := by exact_mod_cast this
      _ = (a : ℚ) * 2 ^ 64 := by push_cast; ring
  have hMgt : (a : ℚ) * 2 ^ 64 < ((M : ℚ) + 1) * b := by
    have hnat : a * 2 ^ 64 < (M + 1) * b := by
      have hdm := Nat.div_add_mod (a * 2 ^ 64) b
      have hmod : (a * 2 ^ 64) % b < b := Nat.mod_lt _ hb
      calc a * 2 ^ 64 = b * M + (a * 2 ^ 64) % b := by rw [hM]; exact hdm.symm
        _ < b * M + b := Nat.add_lt_add_left hmod _
        _ = (M + 1) * b := by ring
    calc (a : ℚ) * 2 ^ 64 = ((a * 2 ^ 64 : Nat) : ℚ) := by push_cast; ring
      _ < (((M + 1) * b : Nat) : ℚ) := by exact_mod_cast hnat
      _ = ((M : ℚ) + 1) * b := by push_cast; ring
  have hq64 : (2 : ℚ) ^ (k : ℤ) ≤ ((a : ℚ) / b) * 2 ^ 64 := by
    have h2k : (2 : ℚ) ^ (k : ℤ) = ((2 ^ k : Nat) : ℚ) := by
      rw [zpow_natCast]; push_cast; ring
    have hMq : ((2 ^ k : Nat) : ℚ) ≤ (M : ℚ) := by exact_mod_cast hlo
    rw [h2k]
    calc ((2 ^ k : Nat) : ℚ) ≤ (M : ℚ) := hMq
      _ ≤ (a : ℚ) * 2 ^ 64 / b := by
          rw [le_div_iff₀ hbq]
          exact hMle
      _ = ((a : ℚ) / b) * 2 ^ 64 := by ring
  have hq64' : ((a : ℚ) / b) * 2 ^ 64 < (2 : ℚ) ^ ((k : ℤ) + 1) := by
    have h2k : (2 : ℚ) ^ ((k : ℤ) + 1) = ((2 ^ (k + 1) : Nat) : ℚ) := by
      have : ((k : ℤ) + 1) = ((k + 1 : Nat) : ℤ) := by push_cast; ring
      rw [this, zpow_natCast]; push_cast; ring
    have hMq : (M : ℚ) + 1 ≤ ((2 ^ (k + 1) : Nat) : ℚ) := by
      exact_mod_cast hhi
    rw [h2k]
    calc ((a : ℚ) / b) * 2 ^ 64 = (a : ℚ) * 2 ^ 64 / b := by ring
      _ < (M : ℚ) + 1 := by
          rw [div_lt_iff₀ hbq]
          exact hMgt
      _ ≤ ((2 ^ (k + 1) : Nat) : ℚ) := hMq
  have hilog : ilog2Frac a b = (k : ℤ) - 64 := rfl
  rw [hilog]
  have h64 : (0 : ℚ) < (2 : ℚ) ^ (64 : ℤ) := by positivity
  constructor
  · rw [zpow_sub₀ (by norm_num : (2 : ℚ) ≠ 0)]
    rw [div_le_iff₀ h64]
    calc (2 : ℚ) ^ (k : ℤ) ≤ ((a : ℚ) / b) * 2 ^ 64 := hq64
      _ = ((a : ℚ) / b) * 2 ^ (64 : ℤ) := by norm_num
  · have : (k : ℤ) - 64 + 1 = ((k : ℤ) + 1) - 64 := by ring
    rw [this, zpow_sub₀ (by norm_num : (2 : ℚ) ≠ 0)]
    rw [lt_div_iff₀ h64]
    calc ((a : ℚ) / b) * (2 : ℚ) ^ (64 : ℤ) = ((a : ℚ) / b) * 2 ^ 64 := by norm_num
      _ < (2 : ℚ) ^ ((k : ℤ) + 1) := hq64'

/-- Round-to-nearest differs from the exact fraction by at most one
half. -/
lemma rheNat_err (n m : Nat) (hm : 0 < m) :
    (n : ℚ) / m - 1 / 2 ≤ (rheNat n m : ℚ) ∧
    (rheNat n m : ℚ) ≤ (n : ℚ) / m + 1 / 2 := by
  have hdm : m * (n / m) + n % m = n := Nat.div_add_mod n m
  have hmod : n % m < m := Nat.mod_lt n hm
  have hmq : (0 : ℚ) < m := by exact_mod_cast hm
  have hn : (n : ℚ) = m * ((n / m : ℕ) : ℚ) + ((n % m : ℕ) : ℚ) := by
    exact_mod_cast hdm.symm
  have hq : (n : ℚ) / m = ((n / m : ℕ) : ℚ) + ((n % m : ℕ) : ℚ) / m := by
    rw [hn]
    field_simp
    ring
  have hrm : ((n % m : ℕ) : ℚ) / m < 1 := by
    rw [div_lt_one hmq]
    exact_mod_cast hmod
  have hrm0 : (0 : ℚ) ≤ ((n % m : ℕ) : ℚ) / m := by positivity
  rw [rheNat, hq]
  by_cases h1 : 2 * (n % m) < m
  · rw [if_pos h1]
    have h1q : 2 * ((n % m : ℕ) : ℚ) < m := by exact_mod_cast h1
    have hhalf : ((n % m : ℕ) : ℚ) / m ≤ 1 / 2 := by
      rw [div_le_iff₀ hmq]
      linarith
    constructor
    · linarith
    · linarith
  · rw [if_neg h1]
    have hge : 1 / 2 ≤ ((n % m : ℕ) : ℚ) / m := by
      rw [le_div_iff₀ hmq]
      have : (m : ℚ) ≤ 2 * ((n % m : ℕ) : ℚ) := by
        have := Nat.le_of_not_lt h1
        exact_mod_cast this
      linarith
    by_cases h2 : m < 2 * (n % m)
    · rw [if_pos h2]
      push_cast
      constructor
      · linarith
      · have : 1 / 2 ≤ ((n % m : ℕ) : ℚ) / m := hge
        linarith
    · rw [if_neg h2]
      have hle : ((n % m : ℕ) : ℚ) / m ≤ 1 / 2 := by
        rw [div_le_iff₀ hmq]
        have : 2 * ((n % m : ℕ) : ℚ) ≤ m := by
          have := Nat.le_of_not_lt h2
          exact_mod_cast this
        linarith
      by_cases h3 : (n / m) % 2 = 0
      · rw [if_pos h3]
        constructor
        · linarith
        · linarith
      · rw [if_neg h3]
        push_cast
        constructor
        · linarith
        · linarith

/-- Transfer of the half-unit rounding error through the exponent
scaling: if R approximates q * 2 ^ (23 - e) to one half and
2 ^ e ≤ q, then R * 2 ^ (e - 23) approximates q to a relative error of
2 ^ (-24). -/
lemma rnd32_scale (q : ℚ) (e : ℤ) (R : ℚ)
    (he1 : (2 : ℚ) ^ e ≤ q)
    (hR1 : q * 2 ^ ((23 : ℤ) - e) - 1 / 2 ≤ R)
    (hR2 : R ≤ q * 2 ^ ((23 : ℤ) - e) + 1 / 2) :
    q - q / 2 ^ 24 ≤ R * 2 ^ (e - 23) ∧ R * 2 ^ (e - 23) ≤ q + q / 2 ^ 24 := by
  have h2 : (2 : ℚ) ≠ 0 := by norm_num
  have hp : (0 : ℚ) < (2 : ℚ) ^ (e - 23) := by positivity
  have hcancel : (2 : ℚ) ^ ((23 : ℤ) - e) * 2 ^ (e - 23) = 1 := by
    rw [← zpow_add₀ h2]
    norm_num
  have hhalf : (2 : ℚ) ^ (e - 23) / 2 ≤ q / 2 ^ 24 := by
    have he : (2 : ℚ) ^ (e - 23) / 2 = 2 ^ e / 2 ^ 24 := by
      rw [zpow_sub₀ h2, div_div]
      norm_num
    rw [he]
    exact div_le_div_of_nonneg_right he1 (by positivity)
  constructor
  · have key : (q * 2 ^ ((23 : ℤ) - e) - 1 / 2) * 2 ^ (e - 23) =
        q - 2 ^ (e - 23) / 2 := by
      calc (q * 2 ^ ((23 : ℤ) - e) - 1 / 2) * 2 ^ (e - 23)
          = q * (2 ^ ((23 : ℤ) - e) * 2 ^ (e - 23)) - 2 ^ (e - 23) / 2 := by ring
        _ = q - 2 ^ (e - 23) / 2 := by rw [hcancel, mul_one]
    have hmul := mul_le_mul_of_nonneg_right hR1 hp.le
    rw [key] at hmul
    linarith
  · have key : (q * 2 ^ ((23 : ℤ) - e) + 1 / 2) * 2 ^ (e - 23) =
        q + 2 ^ (e - 23) / 2 := by
      calc (q * 2 ^ ((23 : ℤ) - e) + 1 / 2) * 2 ^ (e - 23)
          = q * (2 ^ ((23 : ℤ) - e) * 2 ^ (e - 23)) + 2 ^ (e - 23) / 2 := by ring
        _ = q + 2 ^ (e - 23) / 2 := by rw [hcancel, mul_one]
    have hmul := mul_le_mul_of_nonneg_right hR2 hp.le
    rw [key] at hmul
    linarith

/-- The rounded 24-bit quotient is within relative error 2 ^ (-24) of
the exact quotient, for the operand sizes the progress computation can
produce. -/
lemma rnd32val_err (a b : Nat) (ha : 0 < a) (hb : 0 < b)
    (ha24 : a ≤ 2 ^ 24) (hb24 : b ≤ 2 ^ 24) :
    (a : ℚ) / b - ((a : ℚ) / b) / 2 ^ 24 ≤ rnd32val a b ∧
    rnd32val a b ≤ (a : ℚ) / b + ((a : ℚ) / b) / 2 ^ 24 := by
  obtain ⟨he1, he2⟩ := ilog2Frac_spec a b ha hb ha24 hb24
  have h2 : (2 : ℚ) ≠ 0 := by norm_num
  by_cases h23 : ilog2Frac a b ≤ 23
  · -- small quotient: scale the dividend up
    have hfrac : rnd32Frac a b =
        (rheNat (a * 2 ^ (23 - ilog2Frac a b).toNat) b, ilog2Frac a b - 23) := by
      rw [rnd32Frac, if_pos h23]
    have hpow : ((2 : ℚ) ^ ((23 - ilog2Frac a b).toNat) : ℚ) =
        (2 : ℚ) ^ ((23 : ℤ) - ilog2Frac a b) := by
      rw [← zpow_natCast (2 : ℚ) ((23 - ilog2Frac a b).toNat),
        Int.toNat_of_nonneg (by omega)]
    have hcast : ((a * 2 ^ (23 - ilog2Frac a b).toNat : ℕ) : ℚ) / b =
        ((a : ℚ) / b) * 2 ^ ((23 : ℤ) - ilog2Frac a b) := by
      push_cast
      rw [hpow]
      ring
    obtain ⟨hR1, hR2⟩ := rheNat_err (a * 2 ^ (23 - ilog2Frac a b).toNat) b hb
    rw [hcast] at hR1 hR2
    have := rnd32_scale ((a : ℚ) / b) (ilog2Frac a b)
      ((rheNat (a * 2 ^ (23 - ilog2Frac a b).toNat) b : ℕ) : ℚ) he1 hR1 hR2
    have hval : rnd32val a b =
        ((rheNat (a * 2 ^ (23 - ilog2Frac a b).toNat) b : ℕ) : ℚ) *
          2 ^ (ilog2Frac a b - 23) := by
      rw [rnd32val, hfrac]
    rw [hval]
    exact this
  · -- large quotient: scale the divisor up
    have hfrac : rnd32Frac a b =
        (rheNat a (b * 2 ^ (ilog2Frac a b - 23).toNat), ilog2Frac a b - 23) := by
      rw [rnd32Frac, if_neg h23]
    have hbp : 0 < b * 2 ^ (ilog2Frac a b - 23).toNat := by positivity
    have hpow : ((2 : ℚ) ^ ((ilog2Frac a b - 23).toNat) : ℚ) =
        (2 : ℚ) ^ (ilog2Frac a b - 23) := by
      rw [← zpow_natCast (2 : ℚ) ((ilog2Frac a b - 23).toNat),
        Int.toNat_of_nonneg (by omega)]
    have hcast : ((a : ℕ) : ℚ) / ((b * 2 ^ (ilog2Frac a b - 23).toNat : ℕ) : ℚ) =
        ((a : ℚ) / b) * 2 ^ ((23 : ℤ) - ilog2Frac a b) := by
      push_cast
      rw [hpow]
      rw [show (23 : ℤ) - ilog2Frac a b = -(ilog2Frac a b - 23) by ring, zpow_neg]
      rw [div_mul_eq_div_div_swap, div_div]
      ring_nf
    obtain ⟨hR1, hR2⟩ := rheNat_err a (b * 2 ^ (ilog2Frac a b - 23).toNat) hbp
    rw [hcast] at hR1 hR2
    have := rnd32_scale ((a : ℚ) / b) (ilog2Frac a b)
      ((rheNat a (b * 2 ^ (ilog2Frac a b - 23).toNat) : ℕ) : ℚ) he1 hR1 hR2
    have hval : rnd32val a b =
        ((rheNat a (b * 2 ^ (ilog2Frac a b - 23).toNat) : ℕ) : ℚ) *
          2 ^ (ilog2Frac a b - 23) := by
      rw [rnd32val, hfrac]
    rw [hval]
    exact this

/-- The floor of a quotient of naturals in ℚ is natural division. -/
lemma natDiv_floor (A B : Nat) (hB : 0 < B) :
    ⌊(A : ℚ) / (B : ℚ)⌋ = ((A / B : ℕ) : ℤ) := by
  have hBq : (0 : ℚ) < (B : ℚ) := by exact_mod_cast hB
  rw [Int.floor_eq_iff]
  constructor
  · rw [le_div_iff₀ hBq]
    have h := Nat.div_mul_le_self A B
    push_cast
    exact_mod_cast h
  · rw [div_lt_iff₀ hBq]
    have hdm := Nat.div_add_mod A B
    have hmod : A % B < B := Nat.mod_lt A hB
    have h : A < (A / B + 1) * B := by
      calc A = B * (A / B) + A % B := hdm.symm
        _ < B * (A / B) + B := Nat.add_lt_add_left hmod _
        _ = (A / B + 1) * B := by ring
    push_cast
    exact_mod_cast h

/-- pct computes the floor of 100 times the rounded quotient. -/
lemma pct_floor (a b : Nat) :
    ((pct a b : ℕ) : ℤ) = ⌊(100 : ℚ) * rnd32val a b⌋ := by
  rw [pct, rnd32val]
  by_cases hk : 0 ≤ (rnd32Frac a b).2
  · rw [if_pos hk]
    have hcast : (100 : ℚ) * (((rnd32Frac a b).1 : ℚ) * 2 ^ (rnd32Frac a b).2) =
        ((100 * (rnd32Frac a b).1 * 2 ^ ((rnd32Frac a b).2).toNat : ℕ) : ℚ) := by
      have hpow : (2 : ℚ) ^ (rnd32Frac a b).2 =
          (2 : ℚ) ^ (((rnd32Frac a b).2).toNat) := by
        rw [← zpow_natCast (2 : ℚ) (((rnd32Frac a b).2).toNat),
          Int.toNat_of_nonneg hk]
      rw [hpow]
      push_cast
      ring
    rw [hcast, Int.floor_natCast]
  · rw [if_neg hk]
    have hkneg : (rnd32Frac a b).2 < 0 := lt_of_not_ge hk
    have hpos : (0 : ℕ) < 2 ^ (-(rnd32Frac a b).2).toNat := by positivity
    have hcast : (100 : ℚ) * (((rnd32Frac a b).1 : ℚ) * 2 ^ (rnd32Frac a b).2) =
        ((100 * (rnd32Frac a b).1 : ℕ) : ℚ) /
          ((2 ^ (-(rnd32Frac a b).2).toNat : ℕ) : ℚ) := by
      set j := (-(rnd32Frac a b).2).toNat with hj
      have hk2 : (rnd32Frac a b).2 = -(j : ℤ) := by omega
      rw [hk2, zpow_neg, zpow_natCast]
      push_cast
      ring
    rw [hcast, natDiv_floor _ _ hpos]

/-- Rounding the zero quotient gives zero. -/
lemma rheNat_zero (m : Nat) : rheNat 0 m = 0 := by
  rw [rheNat]
  simp

/-- The percentage of zero downloaded bytes is zero. -/
lemma pct_zero (b : Nat) : pct 0 b = 0 := by
  have h1 : (rnd32Frac 0 b).1 = 0 := by
    rw [rnd32Frac]
    by_cases hc : ilog2Frac 0 b ≤ 23
    · rw [if_pos hc, Nat.zero_mul, rheNat_zero]
    · rw [if_neg hc, rheNat_zero]
  rw [pct]
  by_cases hk : 0 ≤ (rnd32Frac 0 b).2
  · rw [if_pos hk, h1]
    simp
  · rw [if_neg hk, h1]
    simp

/-- C5, counterexample: the claim asserts the computed percentage is
floor(downloaded * 100 / total) clamped to [0, 100].  At
downloaded = 700, total = 1000 the code computes 69 (the
single-precision quotient of 0.7 rounds below 0.7, and truncation then
loses the unit), while the claimed formula gives 70; and at
downloaded = 2000, total = 1000 the code computes 200: no clamping
happens. -/
theorem c5_counterexample :
    computePercent 700 1000 = some 69 ∧
    (69 : ℤ) ≠ max 0 (min 100 (700 * 100 / 1000)) ∧
    computePercent 2000 1000 = some 200 ∧
    (200 : ℤ) ≠ max 0 (min 100 (2000 * 100 / 1000)) := by
  decide

/-- C5, amended: for every received chunk with 0 ≤ downloaded ≤ total
and 0 < total ≤ 2 ^ 24, the computed progress percentage is the
truncation of 100 times the correctly rounded single-precision quotient:
it is nonnegative and within one unit of floor(downloaded * 100 / total)
(either side), but not always equal to it, and it is not clamped from
above. -/
theorem c5_amended :
    ∀ d t : ℤ, 0 < t → t ≤ 2 ^ 24 → 0 ≤ d → d ≤ t →
    ∀ p : ℤ, computePercent d t = some p →
      0 ≤ p ∧
      ⌊((100 * d : ℤ) : ℚ) / ((t : ℤ) : ℚ)⌋ - 1 ≤ p ∧
      p ≤ ⌊((100 * d : ℤ) : ℚ) / ((t : ℤ) : ℚ)⌋ + 1 := by
  intro d t ht ht24 hd hdt p hcp
  have htne : t ≠ 0 := ne_of_gt ht
  rw [computePercent, if_neg htne, Option.some.injEq] at hcp
  have hsign : ¬(d.sign * t.sign = -1) := by
    rcases lt_or_eq_of_le hd with hd0 | hd0
    · rw [Int.sign_eq_one_iff_pos.mpr hd0, Int.sign_eq_one_iff_pos.mpr ht]
      norm_num
    · rw [← hd0]
      simp
  rw [if_neg hsign] at hcp
  subst hcp
  have haz : (d.natAbs : ℤ) = d := Int.natAbs_of_nonneg hd
  have hbz : (t.natAbs : ℤ) = t := Int.natAbs_of_nonneg ht.le
  have hbpos : 0 < t.natAbs := Int.natAbs_pos.mpr htne
  have hb24 : t.natAbs ≤ 2 ^ 24 := by
    have : (t.natAbs : ℤ) ≤ 2 ^ 24 := by rw [hbz]; exact ht24
    exact_mod_cast this
  have hbq : (0 : ℚ) < (t.natAbs : ℚ) := by exact_mod_cast hbpos
  by_cases ha0 : d.natAbs = 0
  · have hd0 : d = 0 := by omega
    subst hd0
    rw [ha0, pct_zero]
    norm_num
  · have hapos : 0 < d.natAbs := Nat.pos_of_ne_zero ha0
    have hab : d.natAbs ≤ t.natAbs := by
      have : (d.natAbs : ℤ) ≤ (t.natAbs : ℤ) := by rw [haz, hbz]; exact hdt
      exact_mod_cast this
    have ha24 : d.natAbs ≤ 2 ^ 24 := le_trans hab hb24
    obtain ⟨hlo, hhi⟩ := rnd32val_err d.natAbs t.natAbs hapos hbpos ha24 hb24
    have hfl := pct_floor d.natAbs t.natAbs
    have hq0 : (0 : ℚ) < (d.natAbs : ℚ) / (t.natAbs : ℚ) := by positivity
    have hq1 : (d.natAbs : ℚ) / (t.natAbs : ℚ) ≤ 1 := by
      rw [div_le_one hbq]
      exact_mod_cast hab
    have heps : ((d.natAbs : ℚ) / (t.natAbs : ℚ)) / 2 ^ 24 * 100 ≤ 1 := by
      have h1 : ((d.natAbs : ℚ) / (t.natAbs : ℚ)) / 2 ^ 24 ≤ 1 / 2 ^ 24 :=
        div_le_div_of_nonneg_right hq1 (by positivity)
      nlinarith
    have hx : ((100 * d : ℤ) : ℚ) / ((t : ℤ) : ℚ) =
        100 * ((d.natAbs : ℚ) / (t.natAbs : ℚ)) := by
      have had : ((d.natAbs : ℕ) : ℚ) = (d : ℚ) := by
        have h := congrArg (fun z : ℤ => (z : ℚ)) haz
        simp only [Int.cast_natCast] at h
        exact h
      have htb : ((t.natAbs : ℕ) : ℚ) = (t : ℚ) := by
        have h := congrArg (fun z : ℤ => (z : ℚ)) hbz
        simp only [Int.cast_natCast] at h
        exact h
      push_cast
      rw [had, htb]
      ring
    rw [hx]
    have hV1 : 100 * ((d.natAbs : ℚ) / (t.natAbs : ℚ)) - 1 ≤
        100 * rnd32val d.natAbs t.natAbs := by nlinarith
    have hV2 : 100 * rnd32val d.natAbs t.natAbs ≤
        100 * ((d.natAbs : ℚ) / (t.natAbs : ℚ)) + 1 := by nlinarith
    refine ⟨by exact_mod_cast Nat.zero_le _, ?_, ?_⟩
    · rw [hfl, Int.le_floor]
      push_cast
      have hfle := Int.floor_le (100 * ((d.natAbs : ℚ) / (t.natAbs : ℚ)))
      linarith
    · rw [hfl]
      have hmono : ⌊100 * rnd32val d.natAbs t.natAbs⌋ ≤
          ⌊100 * ((d.natAbs : ℚ) / (t.natAbs : ℚ)) + 1⌋ := Int.floor_mono hV2
      have hadd : ⌊100 * ((d.natAbs : ℚ) / (t.natAbs : ℚ)) + 1⌋ =
          ⌊100 * ((d.natAbs : ℚ) / (t.natAbs : ℚ))⌋ + 1 := by
        rw [show (1 : ℚ) = ((1 : ℤ) : ℚ) by norm_num, Int.floor_add_int]
      omega

/-- C5, witness for the amended theorem at downloaded 700 of total 1000,
where the computed percentage is 69. -/
theorem c5_witness :
    0 ≤ (69 : ℤ) ∧
    ⌊((100 * 700 : ℤ) : ℚ) / (((1000 : ℤ) : ℤ) : ℚ)⌋ - 1 ≤ (69 : ℤ) ∧
    (69 : ℤ) ≤ ⌊((100 * 700 : ℤ) : ℚ) / (((1000 : ℤ) : ℤ) : ℚ)⌋ + 1 :=
  c5_amended 700 1000 (by norm_num) (by norm_num) (by norm_num) (by norm_num)
    69 (by decide)

end Bytebeam
